import Mathlib

/-!
Verification development for the forward composition engine and training loop of
`neuralprophet/time_net.py` (class `TimeNet`).

Modelling conventions:
* Tensor values are rationals (`ℚ`); real-valued transcendental code (the cosine
  recency ramp) is modelled over `ℝ`.
* A tensor of shape (batch, n_forecasts, n_quantiles) is modelled either as a
  function `ℕ → ℕ → ℕ → ℚ` or, for the quantile-reconciliation code whose
  operations all act independently on each (batch, horizon) cell, as a function
  `ℕ → ℕ → List ℚ` giving the quantile-channel vector at each cell.
* `detach()` only affects gradients, not values, so it is the identity here.
* In-place tensor mutation through slice views is modelled by threading the
  tensor state explicitly and returning the final state of the mutated input.
-/

namespace TimeNet

/-- One (batch, horizon) cell of a (batch, n_forecasts, n_quantiles) tensor is a
list of per-quantile values; a full tensor maps (batch, horizon) to a cell. -/
abbrev DiffsTensor := ℕ → ℕ → List ℚ

/-- The forward in-place running-max pass over the upper-quantile offsets
(`time_net.py` lines 428-434): first `u[0] = max(0, u[0])`, then for each i,
`u[i+1] = max(u[i+1], u[i])` where `u[i]` already holds its final value.
`runMaxFrom acc ys` continues the pass with `acc` the final value at the
position just before `ys`. -/
def runMaxFrom (acc : ℚ) : List ℚ → List ℚ
  | [] => []
  | y :: ys => max y acc :: runMaxFrom (max y acc) ys

/-- The full forward pass of lines 428-434 on the upper-offset slice. -/
def clampUpper : List ℚ → List ℚ
  | [] => []
  | x :: xs => max 0 x :: runMaxFrom (max 0 x) xs

/-- The backward in-place running-max pass over the lower-quantile offsets
(`time_net.py` lines 442-448): first `l[last] = max(0, l[last])`, then for i
descending, `l[i-1] = max(l[i-1], l[i])` where `l[i]` already holds its final
value. The recursion processes the list from the front, each element taking the
max with the already-clamped head of the remainder. -/
def clampLower : List ℚ → List ℚ
  | [] => []
  | x :: xs =>
    match clampLower xs with
    | [] => [max 0 x]
    | y :: ys => max x y :: y :: ys

/-- `TimeNet._compute_quantile_forecasts_from_diffs` (lines 396-454), acting on
the quantile-channel vector of one (batch, horizon) cell. Returns the pair
(out, final state of the `diffs` argument): in predict mode the crossing
correction writes through slice views of `diffs`, mutating it in place, so the
final state of `diffs` is part of the observable behaviour. The median used on
lines 436 and 451 is read from the then-current state of `diffs`, exactly as in
the source. -/
def computeQuantileForecastsFromDiffs (quantiles : List ℚ) (predict_mode : Bool)
    (diffs : List ℚ) : List ℚ × List ℚ :=
  -- line 411: if len(self.quantiles) <= 1: return diffs
  if quantiles.length ≤ 1 then (diffs, diffs)
  else
    -- lines 414-417
    let quantiles_divider_index :=
      if quantiles.any (fun quantile => decide ((1:ℚ)/2 < quantile)) then
        quantiles.findIdx (fun quantile => decide ((1:ℚ)/2 < quantile))
      else quantiles.length
    -- lines 419-420
    let n_upper_quantiles := diffs.length - quantiles_divider_index
    let n_lower_quantiles := quantiles_divider_index - 1
    -- lines 422-423: out = zeros_like(diffs); out[..., 0] = diffs[..., 0]
    let out := (List.replicate diffs.length (0:ℚ)).set 0 (diffs.getD 0 0)
    -- lines 425-437: upper block (mutates diffs[divider:] in predict mode)
    let step1 :=
      if 0 < n_upper_quantiles then
        let upper_quantile_diffs := diffs.drop quantiles_divider_index
        let upper_clamped :=
          if predict_mode then clampUpper upper_quantile_diffs else upper_quantile_diffs
        let diffs1 := diffs.take quantiles_divider_index ++ upper_clamped
        let out1 := out.take quantiles_divider_index
          ++ upper_clamped.map (fun d => d + diffs1.getD 0 0)
        (diffs1, out1)
      else (diffs, out)
    -- lines 439-452: lower block (mutates diffs[1:divider] in predict mode;
    -- line 449 negates into a fresh tensor, so diffs keeps the un-negated values)
    let step2 :=
      if 0 < n_lower_quantiles then
        let lower_quantile_diffs := (step1.1.drop 1).take n_lower_quantiles
        let lower_clamped :=
          if predict_mode then clampLower lower_quantile_diffs else lower_quantile_diffs
        let diffs2 := step1.1.take 1 ++ lower_clamped ++ step1.1.drop (1 + n_lower_quantiles)
        let out2 := step1.2.take 1
          ++ lower_clamped.map (fun d => -d + diffs2.getD 0 0)
          ++ step1.2.drop (1 + n_lower_quantiles)
        (diffs2, out2)
      else (step1.1, step1.2)
    (step2.2, step2.1)

/-- The output tensor of quantile reconciliation, applied cellwise: every
operation of lines 411-454 acts independently on each (batch, horizon) cell. -/
def reconcileOut (quantiles : List ℚ) (predict_mode : Bool) (t : DiffsTensor) : DiffsTensor :=
  fun b h => (computeQuantileForecastsFromDiffs quantiles predict_mode (t b h)).1

/-- The final state of the input `diffs` tensor after quantile reconciliation
(the in-place mutation through slice views), applied cellwise. -/
def reconcileMut (quantiles : List ℚ) (predict_mode : Bool) (t : DiffsTensor) : DiffsTensor :=
  fun b h => (computeQuantileForecastsFromDiffs quantiles predict_mode (t b h)).2

/-- Line 654: the reconciliation runs with `predict_mode = (mode != "train")`. -/
def predictModeOf (mode : String) : Bool := mode != "train"

/-- The shape in which `TimeNet` receives its configured quantile list: the
median 0.5 first, then the below-median quantiles in strictly increasing order,
then the above-median quantiles in strictly increasing order. -/
def WellFormedQuantiles (quantiles lowers uppers : List ℚ) : Prop :=
  quantiles = (1:ℚ)/2 :: (lowers ++ uppers)
    ∧ lowers.Pairwise (· < ·) ∧ uppers.Pairwise (· < ·)
    ∧ (∀ q ∈ lowers, q < 1/2) ∧ (∀ q ∈ uppers, 1/2 < q)

/-- `out` is non-decreasing in quantile order: whenever channel `i` estimates a
strictly smaller quantile than channel `j`, the value at `i` is at most the
value at `j`. -/
def MonotoneInQuantileOrder (quantiles out : List ℚ) : Prop :=
  ∀ i j, i < quantiles.length → j < quantiles.length →
    quantiles.getD i 0 < quantiles.getD j 0 → out.getD i 0 ≤ out.getD j 0

lemma runMaxFrom_length (acc : ℚ) (l : List ℚ) : (runMaxFrom acc l).length = l.length := by
  induction l generalizing acc with
  | nil => rfl
  | cons y ys ih => simp [runMaxFrom, ih]

lemma clampUpper_length (l : List ℚ) : (clampUpper l).length = l.length := by
  cases l with
  | nil => rfl
  | cons x xs => simp [clampUpper, runMaxFrom_length]

lemma clampLower_length (l : List ℚ) : (clampLower l).length = l.length := by
  induction l with
  | nil => rfl
  | cons x xs ih =>
    cases h : clampLower xs with
    | nil =>
      have hx : xs.length = 0 := by rw [← ih, h]; rfl
      simp [clampLower, h, hx]
    | cons y ys =>
      have hlen : ys.length + 1 = xs.length := by
        have := ih; rw [h] at this; simpa using this
      simp only [clampLower, h, List.length_cons]
      omega

lemma findIdx_append_of_forall (p : ℚ → Bool) (l r : List ℚ) (h : ∀ x ∈ l, p x = false) :
    (l ++ r).findIdx p = l.length + r.findIdx p := by
  induction l with
  | nil => simp
  | cons a as ih =>
    have ha : p a = false := h a (by simp)
    simp only [List.cons_append, List.findIdx_cons, ha, cond_false, List.length_cons]
    rw [ih (fun x hx => h x (by simp [hx]))]
    omega

lemma divider_eq (lowers uppers : List ℚ)
    (hlow : ∀ q ∈ lowers, q < 1/2) (hup : ∀ q ∈ uppers, 1/2 < q) :
    (if ((1:ℚ)/2 :: (lowers ++ uppers)).any (fun quantile => decide ((1:ℚ)/2 < quantile)) then
        ((1:ℚ)/2 :: (lowers ++ uppers)).findIdx (fun quantile => decide ((1:ℚ)/2 < quantile))
      else ((1:ℚ)/2 :: (lowers ++ uppers)).length) = 1 + lowers.length := by
  cases uppers with
  | nil =>
    have hany : ((1:ℚ)/2 :: (lowers ++ [])).any (fun quantile => decide ((1:ℚ)/2 < quantile)) = false := by
      rw [List.any_eq_false]
      intro x hx
      simp only [List.append_nil, List.mem_cons] at hx
      rcases hx with rfl | hx
      · simp
      · simpa using not_lt.mpr (le_of_lt (hlow x hx))
    rw [hany]
    simp only [Bool.false_eq_true, if_false, List.length_cons, List.length_append,
      List.length_nil]
    omega
  | cons u us =>
    have hany : ((1:ℚ)/2 :: (lowers ++ u :: us)).any
        (fun quantile => decide ((1:ℚ)/2 < quantile)) = true := by
      simp only [List.any_eq_true]
      exact ⟨u, by simp, by simpa using hup u (by simp)⟩
    rw [hany]
    simp only [if_true]
    rw [List.findIdx_cons]
    have hmed : decide ((1:ℚ)/2 < (1:ℚ)/2) = false := by simp
    rw [hmed]
    simp only [cond_false]
    rw [findIdx_append_of_forall _ _ _
      (fun x hx => by simpa using not_lt.mpr (le_of_lt (hlow x hx)))]
    rw [List.findIdx_cons]
    have hu : decide ((1:ℚ)/2 < u) = true := by simpa using hup u (by simp)
    rw [hu]
    simp only [cond_true]
    omega

/-- Closed-form evaluation of `computeQuantileForecastsFromDiffs` on a cell
vector decomposed to match a median-first quantile configuration: the output is
the median followed by the (possibly clamped) lower offsets subtracted from the
median and the (possibly clamped) upper offsets added to the median, and the
final state of the input holds the clamped, un-negated offsets. -/
lemma compute_eval (lowers uppers lv uv : List ℚ) (m : ℚ) (pm : Bool)
    (hlow : ∀ q ∈ lowers, q < 1/2) (hup : ∀ q ∈ uppers, 1/2 < q)
    (hl : lv.length = lowers.length) (hu : uv.length = uppers.length)
    (hne : lowers.length + uppers.length ≠ 0) :
    computeQuantileForecastsFromDiffs ((1:ℚ)/2 :: (lowers ++ uppers)) pm (m :: (lv ++ uv))
      = (m :: ((if pm then clampLower lv else lv).map (fun d => -d + m)
            ++ (if pm then clampUpper uv else uv).map (fun d => d + m)),
         m :: ((if pm then clampLower lv else lv) ++ (if pm then clampUpper uv else uv))) := by
  have hQ : ¬ ((1:ℚ)/2 :: (lowers ++ uppers)).length ≤ 1 := by
    simp only [List.length_cons, List.length_append]
    omega
  rw [computeQuantileForecastsFromDiffs, if_neg hQ]
  rw [divider_eq lowers uppers hlow hup, ← hl]
  simp only []
  have hnu : (m :: (lv ++ uv)).length - (1 + lv.length) = uv.length := by
    simp only [List.length_cons, List.length_append]; omega
  have hnl : 1 + lv.length - 1 = lv.length := by omega
  rw [hnu, hnl]
  have hdrop_top : (m :: (lv ++ uv)).drop (1 + lv.length) = uv := by
    rw [Nat.add_comm 1 lv.length, List.drop_succ_cons, List.drop_left]
  have htake_top : (m :: (lv ++ uv)).take (1 + lv.length) = m :: lv := by
    rw [Nat.add_comm 1 lv.length, List.take_succ_cons, List.take_left]
  have hout0 : (List.replicate (m :: (lv ++ uv)).length (0:ℚ)).set 0
      ((m :: (lv ++ uv)).getD 0 0) = m :: List.replicate (lv ++ uv).length 0 := by
    simp [List.replicate_succ]
  by_cases huv : 0 < uv.length
  · rw [if_pos huv]
    rw [hdrop_top, htake_top, hout0]
    have houttake : (m :: List.replicate (lv ++ uv).length (0:ℚ)).take (1 + lv.length)
        = m :: List.replicate lv.length 0 := by
      rw [Nat.add_comm 1 lv.length, List.take_succ_cons, List.take_replicate]
      congr 2
      rw [List.length_append]
      omega
    rw [houttake]
    have hg1 : ((m :: lv) ++ (if pm = true then clampUpper uv else uv)).getD 0 0 = m := by
      simp
    simp only [hg1]
    by_cases hlv : 0 < lv.length
    · rw [if_pos hlv]
      have h2 : ((m :: lv) ++ (if pm = true then clampUpper uv else uv)).drop 1
          = lv ++ (if pm = true then clampUpper uv else uv) := by
        simp
      have h3 : (lv ++ (if pm = true then clampUpper uv else uv)).take lv.length = lv :=
        List.take_left lv _
      have h4 : ((m :: lv) ++ (if pm = true then clampUpper uv else uv)).take 1 = [m] := by
        simp
      have h5 : ((m :: lv) ++ (if pm = true then clampUpper uv else uv)).drop (1 + lv.length)
          = (if pm = true then clampUpper uv else uv) := by
        rw [List.cons_append, Nat.add_comm 1 lv.length, List.drop_succ_cons, List.drop_left]
      have h6 : ((m :: List.replicate lv.length (0:ℚ))
          ++ (if pm = true then clampUpper uv else uv).map (fun d => d + m)).take 1 = [m] := by
        simp
      have h7 : ((m :: List.replicate lv.length (0:ℚ))
          ++ (if pm = true then clampUpper uv else uv).map (fun d => d + m)).drop (1 + lv.length)
          = (if pm = true then clampUpper uv else uv).map (fun d => d + m) := by
        rw [List.cons_append, Nat.add_comm 1 lv.length, List.drop_succ_cons,
          List.drop_left' (List.length_replicate lv.length 0)]
      rw [h2, h3, h4, h5, h6, h7]
      have hg2 : ([m] ++ (if pm = true then clampLower lv else lv)
          ++ (if pm = true then clampUpper uv else uv)).getD 0 0 = m := by
        simp
      simp only [hg2]
      simp [List.append_assoc]
    · rw [if_neg hlv]
      have hlv0 : lv = [] := List.length_eq_zero.mp (by omega)
      subst hlv0
      have hcl0 : (if pm = true then clampLower [] else ([]:List ℚ)) = [] := by
        cases pm <;> simp [clampLower]
      rw [hcl0]
      simp
  · rw [if_neg huv]
    have huv0 : uv = [] := List.length_eq_zero.mp (by omega)
    subst huv0
    have hcu0 : (if pm = true then clampUpper [] else ([]:List ℚ)) = [] := by
      cases pm <;> simp [clampUpper]
    rw [hcu0]
    have hlv : 0 < lv.length := by
      simp only [List.length_nil] at hu
      omega
    rw [if_pos hlv]
    rw [hout0]
    have h2 : (m :: (lv ++ [])).drop 1 = lv ++ [] := by simp
    have h3 : (lv ++ ([]:List ℚ)).take lv.length = lv := List.take_left lv _
    have h4 : (m :: (lv ++ [])).take 1 = [m] := by simp
    have h5 : (m :: (lv ++ [])).drop (1 + lv.length) = [] := by
      rw [Nat.add_comm 1 lv.length, List.drop_succ_cons]
      simp
    have h6 : (m :: List.replicate (lv ++ []).length (0:ℚ)).take 1 = [m] := by simp
    have h7 : (m :: List.replicate (lv ++ []).length (0:ℚ)).drop (1 + lv.length) = [] := by
      rw [Nat.add_comm 1 lv.length, List.drop_succ_cons]
      simp
    rw [h2, h3, h4, h5, h6, h7]
    have hg2 : ([m] ++ (if pm = true then clampLower lv else lv) ++ []).getD 0 0 = m := by
      simp
    simp only [hg2]
    simp [List.append_assoc]

lemma runMaxFrom_le (acc : ℚ) (l : List ℚ) : ∀ x ∈ runMaxFrom acc l, acc ≤ x := by
  induction l generalizing acc with
  | nil => intro x hx; simp [runMaxFrom] at hx
  | cons y ys ih =>
    intro x hx
    simp only [runMaxFrom, List.mem_cons] at hx
    rcases hx with rfl | hx
    · exact le_max_right _ _
    · exact le_trans (le_max_right _ _) (ih _ x hx)

lemma runMaxFrom_pairwise (acc : ℚ) (l : List ℚ) : (runMaxFrom acc l).Pairwise (· ≤ ·) := by
  induction l generalizing acc with
  | nil => simp [runMaxFrom]
  | cons y ys ih =>
    simp only [runMaxFrom]
    exact List.pairwise_cons.mpr ⟨runMaxFrom_le _ _, ih _⟩

lemma clampUpper_nonneg (l : List ℚ) : ∀ x ∈ clampUpper l, 0 ≤ x := by
  cases l with
  | nil => intro x hx; simp [clampUpper] at hx
  | cons y ys =>
    intro x hx
    simp only [clampUpper, List.mem_cons] at hx
    rcases hx with rfl | hx
    · exact le_max_left _ _
    · exact le_trans (le_max_left _ _) (runMaxFrom_le _ _ x hx)

lemma clampUpper_pairwise (l : List ℚ) : (clampUpper l).Pairwise (· ≤ ·) := by
  cases l with
  | nil => simp [clampUpper]
  | cons y ys =>
    simp only [clampUpper]
    exact List.pairwise_cons.mpr ⟨runMaxFrom_le _ _, runMaxFrom_pairwise _ _⟩

lemma clampLower_nonneg (l : List ℚ) : ∀ x ∈ clampLower l, 0 ≤ x := by
  induction l with
  | nil => intro x hx; simp [clampLower] at hx
  | cons y ys ih =>
    intro x hx
    rcases hcl : clampLower ys with _ | ⟨z, zs⟩
    · rw [clampLower, hcl] at hx
      simp only [List.mem_singleton] at hx
      subst hx
      exact le_max_left _ _
    · rw [clampLower, hcl] at hx
      simp only [List.mem_cons] at hx
      have hz : 0 ≤ z := ih z (by rw [hcl]; exact List.mem_cons_self _ _)
      rcases hx with rfl | rfl | hx
      · exact le_trans hz (le_max_right _ _)
      · exact hz
      · exact ih x (by rw [hcl]; exact List.mem_cons_of_mem _ hx)

lemma clampLower_pairwise (l : List ℚ) : (clampLower l).Pairwise (fun a b => b ≤ a) := by
  induction l with
  | nil => simp [clampLower]
  | cons y ys ih =>
    rcases hcl : clampLower ys with _ | ⟨z, zs⟩
    · rw [clampLower, hcl]
      simp
    · rw [clampLower, hcl]
      rw [hcl] at ih
      refine List.pairwise_cons.mpr ⟨?_, ih⟩
      intro w hw
      rcases List.mem_cons.mp hw with rfl | hw
      · exact le_max_right _ _
      · exact le_trans (List.rel_of_pairwise_cons ih hw) (le_max_right _ _)

lemma getD_map_rat (f : ℚ → ℚ) (l : List ℚ) (n : ℕ) (h : n < l.length) :
    (l.map f).getD n 0 = f (l.getD n 0) := by
  rw [List.getD_eq_getElem _ _ (by simpa using h), List.getD_eq_getElem _ _ h,
    List.getElem_map]

lemma getD_mem_rat (l : List ℚ) (n : ℕ) (h : n < l.length) : l.getD n 0 ∈ l := by
  rw [List.getD_eq_getElem _ _ h]
  exact List.getElem_mem h

lemma pairwise_getD_rat {R : ℚ → ℚ → Prop} (l : List ℚ) (h : l.Pairwise R) (i j : ℕ)
    (hi : i < l.length) (hj : j < l.length) (hij : i < j) :
    R (l.getD i 0) (l.getD j 0) := by
  rw [List.getD_eq_getElem _ _ hi, List.getD_eq_getElem _ _ hj]
  have := List.pairwise_iff_get.mp h ⟨i, hi⟩ ⟨j, hj⟩ hij
  simpa using this

lemma getD_cons_append_low (a : ℚ) (xs ys : List ℚ) (k : ℕ)
    (h1 : 1 ≤ k) (h2 : k - 1 < xs.length) :
    (a :: (xs ++ ys)).getD k 0 = xs.getD (k - 1) 0 := by
  obtain ⟨j, rfl⟩ : ∃ j, k = j + 1 := ⟨k - 1, by omega⟩
  rw [List.getD_cons_succ]
  exact List.getD_append _ _ _ _ (by simpa using h2)

lemma getD_cons_append_high (a : ℚ) (xs ys : List ℚ) (k : ℕ) (h1 : xs.length < k) :
    (a :: (xs ++ ys)).getD k 0 = ys.getD (k - 1 - xs.length) 0 := by
  obtain ⟨j, rfl⟩ : ∃ j, k = j + 1 := ⟨k - 1, by omega⟩
  rw [List.getD_cons_succ]
  rw [List.getD_append_right _ _ _ _ (by omega)]
  congr 1

lemma idx_lt_of_getD_lt (l : List ℚ) (hP : l.Pairwise (· < ·)) (a b : ℕ)
    (ha : a < l.length) (hb : b < l.length) (hab : l.getD a 0 < l.getD b 0) : a < b := by
  by_contra hle
  push_neg at hle
  rcases lt_or_eq_of_le hle with hba | hba
  · exact absurd hab (not_lt.mpr (le_of_lt (pairwise_getD_rat l hP b a hb ha hba)))
  · rw [hba] at hab
    exact lt_irrefl _ hab

/-- Monotonicity in quantile order of a median-first structured output vector:
lower channels are the median minus non-increasing nonnegative offsets, upper
channels are the median plus non-decreasing nonnegative offsets. -/
lemma mono_structured (lowers uppers lv uv : List ℚ) (m : ℚ)
    (hl : lv.length = lowers.length) (hu : uv.length = uppers.length)
    (hlow : ∀ q ∈ lowers, q < 1/2) (hup : ∀ q ∈ uppers, 1/2 < q)
    (hlowS : lowers.Pairwise (· < ·)) (hupS : uppers.Pairwise (· < ·))
    (hlvP : lv.Pairwise (fun a b => b ≤ a)) (hlvN : ∀ x ∈ lv, 0 ≤ x)
    (huvP : uv.Pairwise (· ≤ ·)) (huvN : ∀ x ∈ uv, 0 ≤ x) :
    MonotoneInQuantileOrder ((1:ℚ)/2 :: (lowers ++ uppers))
      (m :: (lv.map (fun d => -d + m) ++ uv.map (fun d => d + m))) := by
  intro i j hi hj hlt
  simp only [List.length_cons, List.length_append] at hi hj
  have hmapL : (lv.map (fun d => -d + m)).length = lowers.length := by simp [hl]
  have hqLow : ∀ k, 1 ≤ k → k ≤ lowers.length →
      ((1:ℚ)/2 :: (lowers ++ uppers)).getD k 0 = lowers.getD (k-1) 0 :=
    fun k h1 h2 => getD_cons_append_low _ _ _ k h1 (by omega)
  have hqHigh : ∀ k, lowers.length < k →
      ((1:ℚ)/2 :: (lowers ++ uppers)).getD k 0 = uppers.getD (k-1-lowers.length) 0 :=
    fun k h1 => getD_cons_append_high _ _ _ k h1
  have hoLow : ∀ k, 1 ≤ k → k ≤ lowers.length →
      (m :: (lv.map (fun d => -d + m) ++ uv.map (fun d => d + m))).getD k 0
        = -(lv.getD (k-1) 0) + m := by
    intro k h1 h2
    rw [getD_cons_append_low _ _ _ k h1 (by rw [hmapL]; omega)]
    exact getD_map_rat _ _ _ (by rw [hl]; omega)
  have hoHigh : ∀ k, lowers.length < k → k < 1 + (lowers.length + uppers.length) →
      (m :: (lv.map (fun d => -d + m) ++ uv.map (fun d => d + m))).getD k 0
        = uv.getD (k-1-lowers.length) 0 + m := by
    intro k h1 h2
    rw [getD_cons_append_high _ _ _ k (by rw [hmapL]; exact h1)]
    rw [hmapL]
    exact getD_map_rat _ _ _ (by rw [hu]; omega)
  rcases Nat.eq_zero_or_pos i with hi0 | hi1
  · subst hi0
    rw [List.getD_cons_zero] at hlt ⊢
    rcases Nat.eq_zero_or_pos j with hj0 | hj1
    · subst hj0
      rw [List.getD_cons_zero] at hlt
      exact absurd hlt (lt_irrefl _)
    · by_cases hjL : j ≤ lowers.length
      · rw [hqLow j hj1 hjL] at hlt
        have : lowers.getD (j-1) 0 < 1/2 := hlow _ (getD_mem_rat _ _ (by omega))
        exact absurd hlt (by linarith)
      · push_neg at hjL
        rw [hoHigh j hjL (by omega)]
        have : 0 ≤ uv.getD (j-1-lowers.length) 0 :=
          huvN _ (getD_mem_rat _ _ (by rw [hu]; omega))
        linarith
  · by_cases hiL : i ≤ lowers.length
    · rw [hqLow i hi1 hiL] at hlt
      rw [hoLow i hi1 hiL]
      have hiMem : 0 ≤ lv.getD (i-1) 0 := hlvN _ (getD_mem_rat _ _ (by rw [hl]; omega))
      rcases Nat.eq_zero_or_pos j with hj0 | hj1
      · subst hj0
        rw [List.getD_cons_zero]
        linarith
      · by_cases hjL : j ≤ lowers.length
        · rw [hqLow j hj1 hjL] at hlt
          rw [hoLow j hj1 hjL]
          have hij : i - 1 < j - 1 :=
            idx_lt_of_getD_lt lowers hlowS _ _ (by omega) (by omega) hlt
          have : lv.getD (j-1) 0 ≤ lv.getD (i-1) 0 :=
            pairwise_getD_rat lv hlvP _ _ (by rw [hl]; omega) (by rw [hl]; omega) hij
          linarith
        · push_neg at hjL
          rw [hoHigh j hjL (by omega)]
          have : 0 ≤ uv.getD (j-1-lowers.length) 0 :=
            huvN _ (getD_mem_rat _ _ (by rw [hu]; omega))
          linarith
    · push_neg at hiL
      rw [hqHigh i hiL] at hlt
      have hiVal : 1/2 < uppers.getD (i-1-lowers.length) 0 :=
        hup _ (getD_mem_rat _ _ (by omega))
      rcases Nat.eq_zero_or_pos j with hj0 | hj1
      · subst hj0
        rw [List.getD_cons_zero] at hlt
        exact absurd hlt (by linarith)
      · by_cases hjL : j ≤ lowers.length
        · rw [hqLow j hj1 hjL] at hlt
          have : lowers.getD (j-1) 0 < 1/2 := hlow _ (getD_mem_rat _ _ (by omega))
          exact absurd hlt (by linarith)
        · push_neg at hjL
          rw [hqHigh j hjL] at hlt
          rw [hoHigh i hiL (by omega), hoHigh j hjL (by omega)]
          have hij : i - 1 - lowers.length < j - 1 - lowers.length :=
            idx_lt_of_getD_lt uppers hupS _ _ (by omega) (by omega) hlt
          have : uv.getD (i-1-lowers.length) 0 ≤ uv.getD (j-1-lowers.length) 0 :=
            pairwise_getD_rat uv huvP _ _ (by rw [hu]; omega) (by rw [hu]; omega) hij
          linarith

lemma exists_decomp (v : List ℚ) (a c : ℕ) (h : v.length = 1 + a + c) :
    ∃ m lv uv, v = m :: (lv ++ uv) ∧ lv.length = a ∧ uv.length = c := by
  cases v with
  | nil => exact absurd h (by simp; omega)
  | cons x rest =>
    refine ⟨x, rest.take a, rest.drop a, ?_, ?_, ?_⟩
    · rw [List.take_append_drop]
    · rw [List.length_take]
      simp only [List.length_cons] at h
      omega
    · rw [List.length_drop]
      simp only [List.length_cons] at h
      omega

lemma clampLower_pairwise_flip (l : List ℚ) :
    (clampLower l).Pairwise (fun a b => b ≤ a) := clampLower_pairwise l

/-- Core cell-level monotonicity: on a well-formed multi-quantile configuration,
the predict-mode reconciliation output is non-decreasing in quantile order. -/
lemma reconcile_mono_cell (lowers uppers : List ℚ)
    (hlowS : lowers.Pairwise (· < ·)) (hupS : uppers.Pairwise (· < ·))
    (hlow : ∀ q ∈ lowers, q < 1/2) (hup : ∀ q ∈ uppers, 1/2 < q)
    (hne : lowers.length + uppers.length ≠ 0)
    (v : List ℚ) (hlen : v.length = 1 + lowers.length + uppers.length) :
    MonotoneInQuantileOrder ((1:ℚ)/2 :: (lowers ++ uppers))
      (computeQuantileForecastsFromDiffs ((1:ℚ)/2 :: (lowers ++ uppers)) true v).1 := by
  obtain ⟨m, lv, uv, rfl, hlv, huv⟩ := exists_decomp v lowers.length uppers.length hlen
  rw [compute_eval lowers uppers lv uv m true hlow hup hlv huv hne]
  simp only [if_true]
  exact mono_structured lowers uppers (clampLower lv) (clampUpper uv) m
    (by rw [clampLower_length, hlv]) (by rw [clampUpper_length, huv])
    hlow hup hlowS hupS
    (clampLower_pairwise lv) (clampLower_nonneg lv)
    (clampUpper_pairwise uv) (clampUpper_nonneg uv)

/-- C1: for every well-formed configured quantile list with more than one
quantile and every diffs tensor, in any forward-pass mode other than train the
reconciled output is non-decreasing in quantile order at every (batch, horizon)
position; and in train mode this monotonicity fails on a concrete instance, so
it is not guaranteed there. -/
theorem quantile_monotonicity_predict_mode
    (quantiles lowers uppers : List ℚ) (hwf : WellFormedQuantiles quantiles lowers uppers)
    (hQ : 1 < quantiles.length) (mode : String) (hmode : mode ≠ "train")
    (t : DiffsTensor) (b h : ℕ) (hlen : (t b h).length = quantiles.length) :
    MonotoneInQuantileOrder quantiles (reconcileOut quantiles (predictModeOf mode) t b h)
    ∧ ¬ MonotoneInQuantileOrder ((1:ℚ)/2 :: ([1/10] ++ [9/10]))
        (reconcileOut ((1:ℚ)/2 :: ([1/10] ++ [9/10])) (predictModeOf "train")
          (fun _ _ => [0, -1, 0]) 0 0) := by
  constructor
  · obtain ⟨hqeq, hlowS, hupS, hlow, hup⟩ := hwf
    subst hqeq
    have hpm : predictModeOf mode = true := by
      simp only [predictModeOf, bne_iff_ne, ne_eq]
      exact hmode
    rw [hpm]
    have hne : lowers.length + uppers.length ≠ 0 := by
      simp only [List.length_cons, List.length_append] at hQ
      omega
    have hlen2 : (t b h).length = 1 + lowers.length + uppers.length := by
      rw [hlen]
      simp only [List.length_cons, List.length_append]
      omega
    exact reconcile_mono_cell lowers uppers hlowS hupS hlow hup hne (t b h) hlen2
  · have hpm : predictModeOf "train" = false := by rfl
    rw [hpm]
    intro hmono
    have h01 := hmono 1 0 (by simp) (by simp) (by norm_num)
    rw [reconcileOut] at h01
    have hlist : ([0, -1, 0] : List ℚ) = (0:ℚ) :: ([-1] ++ [0]) := by norm_num
    rw [hlist, compute_eval [1/10] [9/10] [-1] [0] 0 false (by norm_num) (by norm_num)
      rfl rfl (by norm_num)] at h01
    norm_num at h01

/-- C1 witness: the theorem instantiated at the quantile configuration
{0.1, 0.5, 0.9} in predict mode on a concrete cell. -/
theorem quantile_monotonicity_predict_mode_witness :
    WellFormedQuantiles ((1:ℚ)/2 :: ([1/10] ++ [9/10])) [1/10] [9/10]
    ∧ 1 < ((1:ℚ)/2 :: ([1/10] ++ [9/10])).length
    ∧ "predict" ≠ "train"
    ∧ ((fun (_ _ : ℕ) => [(5:ℚ), 1, 2]) 0 0).length = ((1:ℚ)/2 :: ([1/10] ++ [9/10])).length
    ∧ (MonotoneInQuantileOrder ((1:ℚ)/2 :: ([1/10] ++ [9/10]))
        (reconcileOut ((1:ℚ)/2 :: ([1/10] ++ [9/10])) (predictModeOf "predict")
          (fun _ _ => [5, 1, 2]) 0 0)
      ∧ ¬ MonotoneInQuantileOrder ((1:ℚ)/2 :: ([1/10] ++ [9/10]))
          (reconcileOut ((1:ℚ)/2 :: ([1/10] ++ [9/10])) (predictModeOf "train")
            (fun _ _ => [0, -1, 0]) 0 0)) := by
  have hwf : WellFormedQuantiles ((1:ℚ)/2 :: ([1/10] ++ [9/10])) [1/10] [9/10] := by
    refine ⟨rfl, by simp, by simp, ?_, ?_⟩ <;> intro q hq <;> simp at hq <;> subst hq <;> norm_num
  refine ⟨hwf, by simp, by simp, by simp, ?_⟩
  exact quantile_monotonicity_predict_mode _ [1/10] [9/10] hwf (by simp) "predict"
    (by simp) (fun _ _ => [5, 1, 2]) 0 0 (by simp)

/-- C7: for every input diffs tensor, configured quantile list and execution
mode (train and non-train alike), the median channel (index 0) of the
reconciliation output equals the median channel of the input at every
(batch, horizon) position. -/
theorem median_invariance (quantiles lowers uppers : List ℚ)
    (hwf : WellFormedQuantiles quantiles lowers uppers) (predict_mode : Bool)
    (t : DiffsTensor) (b h : ℕ) (hlen : (t b h).length = quantiles.length) :
    (reconcileOut quantiles predict_mode t b h).getD 0 0 = (t b h).getD 0 0 := by
  obtain ⟨rfl, _, _, hlow, hup⟩ := hwf
  by_cases hne : lowers.length + uppers.length = 0
  · rw [reconcileOut, computeQuantileForecastsFromDiffs,
      if_pos (by simp only [List.length_cons, List.length_append]; omega)]
  · obtain ⟨m, lv, uv, hv, hlv, huv⟩ := exists_decomp (t b h) lowers.length uppers.length
      (by rw [hlen]; simp only [List.length_cons, List.length_append]; omega)
    rw [reconcileOut, hv,
      compute_eval lowers uppers lv uv m predict_mode hlow hup hlv huv hne]
    simp

/-- C7 witness: median invariance at the configuration {0.1, 0.5, 0.9} in
predict mode on a concrete cell. -/
theorem median_invariance_witness :
    WellFormedQuantiles ((1:ℚ)/2 :: ([1/10] ++ [9/10])) [1/10] [9/10]
    ∧ ((fun (_ _ : ℕ) => [(7:ℚ), 5, -3]) 0 0).length = ((1:ℚ)/2 :: ([1/10] ++ [9/10])).length
    ∧ (reconcileOut ((1:ℚ)/2 :: ([1/10] ++ [9/10])) true (fun _ _ => [7, 5, -3]) 0 0).getD 0 0
      = ((fun (_ _ : ℕ) => [(7:ℚ), 5, -3]) 0 0).getD 0 0 := by
  have hwf : WellFormedQuantiles ((1:ℚ)/2 :: ([1/10] ++ [9/10])) [1/10] [9/10] := by
    refine ⟨rfl, by simp, by simp, ?_, ?_⟩ <;> intro q hq <;> simp at hq <;> subst hq <;> norm_num
  exact ⟨hwf, by simp,
    median_invariance _ [1/10] [9/10] hwf true (fun _ _ => [7, 5, -3]) 0 0 (by simp)⟩

/-- C8: with exactly one configured quantile, reconciliation is the identity in
every mode: the output tensor equals the input tensor at every cell. -/
theorem single_quantile_identity (quantiles : List ℚ) (hq : quantiles.length = 1)
    (predict_mode : Bool) (t : DiffsTensor) (b h : ℕ) :
    reconcileOut quantiles predict_mode t b h = t b h := by
  rw [reconcileOut, computeQuantileForecastsFromDiffs, if_pos (by omega)]

/-- C8 witness: identity at quantile list {0.5} on a concrete cell. -/
theorem single_quantile_identity_witness :
    ([(1:ℚ)/2]).length = 1
    ∧ reconcileOut [(1:ℚ)/2] true (fun _ _ => [3]) 0 0 = [3] :=
  ⟨rfl, single_quantile_identity [(1:ℚ)/2] rfl true (fun _ _ => [3]) 0 0⟩

/-- C10: in predict mode with more than one quantile, reconciliation mutates
its input in place: afterwards the non-median channels of the input hold the
running-max clamped offsets (not the original values, as the concrete instance
in the last conjunct shows, and not negated); in train mode, or with a single
quantile, the input is returned unchanged. -/
theorem reconcile_mutates_input_in_predict_mode
    (quantiles lowers uppers : List ℚ) (hwf : WellFormedQuantiles quantiles lowers uppers)
    (t : DiffsTensor) (b h : ℕ) (m : ℚ) (lv uv : List ℚ)
    (hv : t b h = m :: (lv ++ uv)) (hlv : lv.length = lowers.length)
    (huv : uv.length = uppers.length) :
    (1 < quantiles.length →
      reconcileMut quantiles true t b h = m :: (clampLower lv ++ clampUpper uv))
    ∧ reconcileMut quantiles false t b h = t b h
    ∧ (quantiles.length ≤ 1 → reconcileMut quantiles true t b h = t b h)
    ∧ reconcileMut ((1:ℚ)/2 :: ([1/10] ++ [9/10])) true (fun _ _ => [0, -1, -1]) 0 0
      ≠ [0, -1, -1] := by
  obtain ⟨rfl, _, _, hlow, hup⟩ := hwf
  refine ⟨?_, ?_, ?_, ?_⟩
  · intro hQ
    have hne : lowers.length + uppers.length ≠ 0 := by simp at hQ; omega
    rw [reconcileMut, hv, compute_eval lowers uppers lv uv m true hlow hup hlv huv hne]
    simp
  · by_cases hne : lowers.length + uppers.length = 0
    · rw [reconcileMut, computeQuantileForecastsFromDiffs,
        if_pos (by simp only [List.length_cons, List.length_append]; omega)]
    · rw [reconcileMut, hv, compute_eval lowers uppers lv uv m false hlow hup hlv huv hne]
      simp
  · intro hQ
    rw [reconcileMut, computeQuantileForecastsFromDiffs, if_pos hQ]
  · rw [reconcileMut]
    have hlist : ([0, -1, -1] : List ℚ) = (0:ℚ) :: ([-1] ++ [-1]) := by norm_num
    rw [hlist, compute_eval [1/10] [9/10] [-1] [-1] 0 true (by norm_num) (by norm_num)
      rfl rfl (by norm_num)]
    simp only [if_true]
    intro hcontra
    have h1 := congrArg (fun l => l.getD 1 0) hcontra
    simp [clampLower, clampUpper] at h1

/-- C10 witness: the characterization instantiated at the configuration
{0.1, 0.5, 0.9} on a concrete cell with crossing offsets. -/
theorem reconcile_mutates_input_in_predict_mode_witness :
    WellFormedQuantiles ((1:ℚ)/2 :: ([1/10] ++ [9/10])) [1/10] [9/10]
    ∧ (fun (_ _ : ℕ) => [(0:ℚ), -1, -1]) 0 0 = (0:ℚ) :: ([-1] ++ [-1])
    ∧ ((1 < ((1:ℚ)/2 :: ([1/10] ++ [9/10])).length →
        reconcileMut ((1:ℚ)/2 :: ([1/10] ++ [9/10])) true (fun _ _ => [0, -1, -1]) 0 0
          = (0:ℚ) :: (clampLower [-1] ++ clampUpper [-1]))
      ∧ reconcileMut ((1:ℚ)/2 :: ([1/10] ++ [9/10])) false (fun _ _ => [0, -1, -1]) 0 0
        = (fun (_ _ : ℕ) => [(0:ℚ), -1, -1]) 0 0
      ∧ (((1:ℚ)/2 :: ([1/10] ++ [9/10])).length ≤ 1 →
          reconcileMut ((1:ℚ)/2 :: ([1/10] ++ [9/10])) true (fun _ _ => [0, -1, -1]) 0 0
            = (fun (_ _ : ℕ) => [(0:ℚ), -1, -1]) 0 0)
      ∧ reconcileMut ((1:ℚ)/2 :: ([1/10] ++ [9/10])) true (fun _ _ => [0, -1, -1]) 0 0
        ≠ [0, -1, -1]) := by
  have hwf : WellFormedQuantiles ((1:ℚ)/2 :: ([1/10] ++ [9/10])) [1/10] [9/10] := by
    refine ⟨rfl, by simp, by simp, ?_, ?_⟩ <;> intro q hq <;> simp at hq <;> subst hq <;> norm_num
  exact ⟨hwf, by norm_num,
    reconcile_mutates_input_in_predict_mode _ [1/10] [9/10] hwf
      (fun _ _ => [0, -1, -1]) 0 0 0 [-1] [-1] (by norm_num) rfl rfl⟩

/-! ## Forward composition engine (`TimeNet.forward`, lines 519-674)

The component sub-models (trend, seasonality, events, regressors, AR-net,
covariate-net) are external collaborators; `forward` only combines their
outputs. Each optional field of `BatchComponents` is `some` exactly when the
source guard for that component holds (config present and the corresponding
feature block is in the current mode's stacker schema); its value is the
already-evaluated sub-model output. -/

/-- A (batch, time, quantile) tensor as a value function. -/
abbrev T3 := ℕ → ℕ → ℕ → ℚ

/-- A (batch, lag-position) matrix, e.g. the raw lag window values. -/
abbrev T2 := ℕ → ℕ → ℚ

/-- Elementwise tensor addition; the `+=` accumulation steps of `forward`. -/
def addT3 (x y : T3) : T3 := fun b t q => x b t q + y b t q

/-- Component outputs entering one `forward` call. -/
structure BatchComponents where
  trend : T3
  seasonality : Option T3
  additiveEvents : Option T3
  multiplicativeEvents : Option T3
  additiveRegressors : Option T3
  multiplicativeRegressors : Option T3
  lagsInput : Option T2
  covariates : Option T3

/-- `additive_components_nonstationary` after the accumulation steps of lines
554-557, 574-575, 584-590 and 604-610: zeros, then `+= s` when seasonality is
configured additive, then `+=` additive events, then `+=` additive regressors,
in source order. -/
def forwardANS (seasonalityMode : String) (bc : BatchComponents) : T3 :=
  let acc : T3 := fun _ _ _ => 0
  let acc := match bc.seasonality with
    | some s => if seasonalityMode = "additive" then addT3 acc s else acc
    | none => acc
  let acc := match bc.additiveEvents with
    | some additive_events => addT3 acc additive_events
    | none => acc
  let acc := match bc.additiveRegressors with
    | some additive_regressors => addT3 acc additive_regressors
    | none => acc
  acc

/-- `multiplicative_components_nonstationary` after the accumulation steps of
lines 558-561, 576-577, 591-599 and 611-617. -/
def forwardMNS (seasonalityMode : String) (bc : BatchComponents) : T3 :=
  let acc : T3 := fun _ _ _ => 0
  let acc := match bc.seasonality with
    | some s => if seasonalityMode = "multiplicative" then addT3 acc s else acc
    | none => acc
  let acc := match bc.multiplicativeEvents with
    | some multiplicative_events => addT3 acc multiplicative_events
    | none => acc
  let acc := match bc.multiplicativeRegressors with
    | some multiplicative_regressors => addT3 acc multiplicative_regressors
    | none => acc
  acc

/-- Lines 623-628: the lag window is stationarized by subtracting the
channel-0 nonstationary contribution (trend + additive nonstationary +
detached trend times multiplicative nonstationary) at each lag position;
`detach` is the identity on values. -/
def forwardStationarized (seasonalityMode : String) (bc : BatchComponents)
    (lags_input : T2) : T2 :=
  fun b i => lags_input b i
    - (bc.trend b i 0 + forwardANS seasonalityMode bc b i 0
       + bc.trend b i 0 * forwardMNS seasonalityMode bc b i 0)

/-- `additive_components` (the stationary, horizon-only accumulator) after
lines 550-553, 629-630 and 639-640: zeros, then `+=` the AR-net output on the
stationarized lags, then `+=` the covariate-net output. `arNet` stands for
`self.auto_regression`. -/
def forwardAC (seasonalityMode : String) (arNet : T2 → T3)
    (bc : BatchComponents) : T3 :=
  let acc : T3 := fun _ _ _ => 0
  let acc := match bc.lagsInput with
    | some lags_input =>
        addT3 acc (arNet (forwardStationarized seasonalityMode bc lags_input))
    | none => acc
  let acc := match bc.covariates with
    | some covariates => addT3 acc covariates
    | none => acc
  acc

/-- Lines 643-650: the pre-reconciliation prediction. Index `h` of the horizon
slice `[:, n_lags : time_input.shape[1], :]` is window index `n_lags + h`;
`detach` is the identity on values. -/
def forwardPrediction (n_lags : ℕ) (seasonalityMode : String) (arNet : T2 → T3)
    (bc : BatchComponents) : T3 :=
  fun b h q =>
    (bc.trend b (n_lags + h) q
      + forwardANS seasonalityMode bc b (n_lags + h) q
      + bc.trend b (n_lags + h) q * forwardMNS seasonalityMode bc b (n_lags + h) q)
    + forwardAC seasonalityMode arNet bc b h q

/-- Value of an optional component output, zero when absent. -/
def optT3 : Option T3 → T3
  | some x => x
  | none => fun _ _ _ => 0

/-- The nonstationary-additive accumulator written as a plain sum of the
enabled additive components. -/
def specNonstationaryAdditive (seasonalityMode : String) (bc : BatchComponents) : T3 :=
  fun b t q =>
    (if seasonalityMode = "additive" then optT3 bc.seasonality b t q else 0)
    + optT3 bc.additiveEvents b t q + optT3 bc.additiveRegressors b t q

/-- The nonstationary-multiplicative accumulator written as a plain sum of the
enabled multiplicative components. -/
def specNonstationaryMultiplicative (seasonalityMode : String) (bc : BatchComponents) : T3 :=
  fun b t q =>
    (if seasonalityMode = "multiplicative" then optT3 bc.seasonality b t q else 0)
    + optT3 bc.multiplicativeEvents b t q + optT3 bc.multiplicativeRegressors b t q

/-- The stationary-additive accumulator written as a plain sum: AR-net output
on the stationarized lag window plus covariate-net output. -/
def specStationaryAdditive (seasonalityMode : String) (arNet : T2 → T3)
    (bc : BatchComponents) : T3 :=
  fun b h q =>
    (match bc.lagsInput with
     | some lags_input =>
        arNet (fun b2 i => lags_input b2 i
          - (bc.trend b2 i 0 + specNonstationaryAdditive seasonalityMode bc b2 i 0
             + bc.trend b2 i 0
               * specNonstationaryMultiplicative seasonalityMode bc b2 i 0)) b h q
     | none => 0)
    + optT3 bc.covariates b h q

lemma forwardANS_eq (seasonalityMode : String) (bc : BatchComponents) (b t q : ℕ) :
    forwardANS seasonalityMode bc b t q = specNonstationaryAdditive seasonalityMode bc b t q := by
  rcases bc with ⟨trend, seas, aev, mev, areg, mreg, lags, cov⟩
  rcases seas with _ | s <;> rcases aev with _ | ae <;> rcases areg with _ | ar <;>
    simp [forwardANS, specNonstationaryAdditive, optT3, addT3, ite_apply]

lemma forwardMNS_eq (seasonalityMode : String) (bc : BatchComponents) (b t q : ℕ) :
    forwardMNS seasonalityMode bc b t q
      = specNonstationaryMultiplicative seasonalityMode bc b t q := by
  rcases bc with ⟨trend, seas, aev, mev, areg, mreg, lags, cov⟩
  rcases seas with _ | s <;> rcases mev with _ | me <;> rcases mreg with _ | mr <;>
    simp [forwardMNS, specNonstationaryMultiplicative, optT3, addT3, ite_apply]

lemma forwardAC_eq (seasonalityMode : String) (arNet : T2 → T3)
    (bc : BatchComponents) (b h q : ℕ) :
    forwardAC seasonalityMode arNet bc b h q
      = specStationaryAdditive seasonalityMode arNet bc b h q := by
  have hstat : ∀ lags_input, forwardStationarized seasonalityMode bc lags_input
      = fun b2 i => lags_input b2 i
        - (bc.trend b2 i 0 + specNonstationaryAdditive seasonalityMode bc b2 i 0
           + bc.trend b2 i 0 * specNonstationaryMultiplicative seasonalityMode bc b2 i 0) := by
    intro lags_input
    funext b2 i
    rw [forwardStationarized, forwardANS_eq, forwardMNS_eq]
  rcases hbc : bc.lagsInput with _ | lags_input <;> rcases hcv : bc.covariates with _ | cov <;>
    simp [forwardAC, specStationaryAdditive, optT3, addT3, hbc, hcv, hstat]

/-- C2: for every batch cell (b, h, q) with h in the horizon (h below
n_forecasts, the length of the slice from n_lags to window end), the composed
pre-reconciliation prediction equals trend at the horizon position, plus the
nonstationary-additive accumulator at the horizon position, plus the
(gradient-detached, value-identical) trend at the horizon position times the
nonstationary-multiplicative accumulator there, plus the stationary-additive
horizon-only accumulator, where each accumulator moreover equals the plain sum
of its enabled components. -/
theorem forward_composition (n_lags n_forecasts : ℕ) (seasonalityMode : String)
    (arNet : T2 → T3) (bc : BatchComponents) (b h q : ℕ) (hh : h < n_forecasts) :
    forwardPrediction n_lags seasonalityMode arNet bc b h q
      = bc.trend b (n_lags + h) q
        + specNonstationaryAdditive seasonalityMode bc b (n_lags + h) q
        + bc.trend b (n_lags + h) q
          * specNonstationaryMultiplicative seasonalityMode bc b (n_lags + h) q
        + specStationaryAdditive seasonalityMode arNet bc b h q := by
  rw [forwardPrediction, forwardANS_eq, forwardMNS_eq, forwardAC_eq]

/-- A concrete batch used to witness the composition identity: one lag, one
forecast step, additive seasonality, every component present. -/
def bcExample : BatchComponents :=
  ⟨fun b t q => (b + t + q : ℚ), some (fun _ _ _ => 2), some (fun _ _ _ => 3),
    some (fun _ _ _ => 5), some (fun _ _ _ => 7), some (fun _ _ _ => 11),
    some (fun b i => (b + i : ℚ)), some (fun _ _ _ => 13)⟩

/-- A concrete stand-in for the AR sub-network used by the witness. -/
def arNetExample : T2 → T3 := fun lg => fun b _ _ => lg b 0 + 1

/-- C2 witness: the composition identity instantiated on the concrete model. -/
theorem forward_composition_witness :
    (0:ℕ) < 1
    ∧ forwardPrediction 1 "additive" arNetExample bcExample 0 0 0
      = bcExample.trend 0 (1 + 0) 0
        + specNonstationaryAdditive "additive" bcExample 0 (1 + 0) 0
        + bcExample.trend 0 (1 + 0) 0
          * specNonstationaryMultiplicative "additive" bcExample 0 (1 + 0) 0
        + specStationaryAdditive "additive" arNetExample bcExample 0 0 0 :=
  ⟨Nat.zero_lt_one,
    forward_composition 1 1 "additive" arNetExample bcExample 0 0 0 Nat.zero_lt_one⟩

/-! ## Time-based sample weight (`_get_time_based_sample_weight`, lines
929-941), applied to the loss in `loss_func` (lines 776-778). -/

/-- Lines 930-938, per time entry: `end_w` is
`config_train.newer_samples_weight`, `start_t` is
`config_train.newer_samples_start`, `t` the (normalized) time value. -/
noncomputable def getTimeBasedSampleWeight (end_w start_t : ℝ) (t : ℝ) : ℝ :=
  let time1 := (t - start_t) / (1 - start_t)
  -- line 933: torch.clamp(time, 0.0, 1.0)
  let time2 := min (max time1 0) 1
  -- line 934
  let time3 := Real.pi * (time2 - 1)
  -- line 935
  let time4 := 1/2 * Real.cos time3 + 1/2
  -- line 938
  (1 + time4 * (end_w - 1)) / end_w

/-- Line 940: the weight gets an extra broadcast dimension, so every quantile
channel receives the same per-time-step weight. -/
noncomputable def sampleWeightTensor (end_w start_t : ℝ) (t : ℕ → ℕ → ℝ) :
    ℕ → ℕ → ℕ → ℝ :=
  fun b i _q => getTimeBasedSampleWeight end_w start_t (t b i)

/-- C5 counterexample: with end weight 2 and warm-up start 1/2, the time step
t = 0 is at or before the warm-up start, yet its sample weight is 1/2, not 1 as
the claim states. -/
theorem recency_weight_counterexample :
    (0:ℝ) ≤ 1/2
    ∧ getTimeBasedSampleWeight 2 (1/2) 0 = 1/2
    ∧ getTimeBasedSampleWeight 2 (1/2) 0 ≠ 1 := by
  have h : getTimeBasedSampleWeight 2 (1/2) 0 = 1/2 := by
    rw [getTimeBasedSampleWeight]
    rw [show ((0:ℝ) - 1/2) / (1 - 1/2) = -1 by norm_num]
    rw [show max (-1 : ℝ) 0 = 0 from max_eq_right (by norm_num)]
    rw [show min (0:ℝ) 1 = 0 from min_eq_left (by norm_num)]
    rw [show Real.pi * ((0:ℝ) - 1) = -Real.pi by ring]
    rw [Real.cos_neg, Real.cos_pi]
    norm_num
  exact ⟨by norm_num, h, by rw [h]; norm_num⟩

/-- C5 amended: for end weight greater than 1 and warm-up start in [0, 1), the
per-time-step sample weight equals 1/end_w (not 1) for every time step at or
before the warm-up start, equals 1 (not end_w) at the newest time step, follows
the half-cosine ramp from 1/end_w up to 1 over the remaining fraction (so the
end-to-start weight ratio is end_w), and is applied identically across all
quantiles. -/
theorem recency_weight_ramp (end_w start_t : ℝ) (hend : 1 < end_w)
    (h0 : 0 ≤ start_t) (h1 : start_t < 1) :
    (∀ t : ℝ, t ≤ start_t → getTimeBasedSampleWeight end_w start_t t = 1/end_w)
    ∧ (∀ t : ℝ, 1 ≤ t → getTimeBasedSampleWeight end_w start_t t = 1)
    ∧ (∀ t : ℝ, getTimeBasedSampleWeight end_w start_t t
        = 1/end_w + (1 - 1/end_w)
          * ((Real.cos (Real.pi * (min (max ((t - start_t)/(1 - start_t)) 0) 1 - 1)) + 1)/2))
    ∧ (∀ (tt : ℕ → ℕ → ℝ) (b i q q2 : ℕ),
        sampleWeightTensor end_w start_t tt b i q
          = sampleWeightTensor end_w start_t tt b i q2) := by
  have hne : end_w ≠ 0 := by linarith
  refine ⟨?_, ?_, ?_, ?_⟩
  · intro t ht
    rw [getTimeBasedSampleWeight]
    have hfrac : (t - start_t) / (1 - start_t) ≤ 0 :=
      div_nonpos_of_nonpos_of_nonneg (by linarith) (by linarith)
    rw [max_eq_right hfrac, min_eq_left (by norm_num : (0:ℝ) ≤ 1)]
    rw [show Real.pi * ((0:ℝ) - 1) = -Real.pi by ring]
    rw [Real.cos_neg, Real.cos_pi]
    rw [show (1:ℝ)/2 * (-1) + 1/2 = 0 by norm_num]
    rw [zero_mul, add_zero]
  · intro t ht
    rw [getTimeBasedSampleWeight]
    have hpos : (0:ℝ) < 1 - start_t := by linarith
    have hfrac : (1:ℝ) ≤ (t - start_t) / (1 - start_t) := by
      rw [le_div_iff₀ hpos]
      linarith
    rw [max_eq_left (by linarith), min_eq_right hfrac]
    rw [show Real.pi * ((1:ℝ) - 1) = 0 by ring]
    rw [Real.cos_zero]
    field_simp
  · intro t
    rw [getTimeBasedSampleWeight]
    field_simp
    ring
  · intro tt b i q q2
    rfl

/-- C5 amended witness: the ramp characterization at end weight 2 and warm-up
start 1/2. -/
theorem recency_weight_ramp_witness :
    (1:ℝ) < 2 ∧ (0:ℝ) ≤ 1/2 ∧ (1:ℝ)/2 < 1
    ∧ ((∀ t : ℝ, t ≤ 1/2 → getTimeBasedSampleWeight 2 (1/2) t = 1/2)
      ∧ (∀ t : ℝ, 1 ≤ t → getTimeBasedSampleWeight 2 (1/2) t = 1)
      ∧ (∀ t : ℝ, getTimeBasedSampleWeight 2 (1/2) t
          = 1/2 + (1 - 1/2)
            * ((Real.cos (Real.pi * (min (max ((t - 1/2)/(1 - 1/2)) 0) 1 - 1)) + 1)/2))
      ∧ (∀ (tt : ℕ → ℕ → ℝ) (b i q q2 : ℕ),
          sampleWeightTensor 2 (1/2) tt b i q = sampleWeightTensor 2 (1/2) tt b i q2)) := by
  have h := recency_weight_ramp 2 (1/2) (by norm_num) (by norm_num) (by norm_num)
  exact ⟨by norm_num, by norm_num, by norm_num, h.1, h.2.1, h.2.2.1, h.2.2.2⟩

/-! ## Regularization assembly (`_add_batch_regularizations`, lines 943-1011)

The configuration attributes the method reads and the scalar values returned by
the external regularizer collaborators (`reg_func_*`, `config_ar.regularize`)
are fields of `RegModel`; the method itself only gates and combines them.
Python truthiness of `trend_local_reg` / `seasonality_local_reg`
(None/False/0.0 falsy) is modelled by the rational value 0. -/

structure RegModel where
  max_lags : ℕ                     -- config_model.max_lags
  n_forecasts : ℕ                  -- config_model.n_forecasts
  arRegLambda : Option ℚ           -- config_ar.reg_lambda
  trendNChangepoints : ℕ           -- config_trend.n_changepoints
  trendReg : Option ℚ              -- l_trend = config_trend.trend_reg
  hasSeasonality : Bool            -- config_seasonality is not None
  seasonDimsPresent : Bool         -- seasonality.season_dims is not None
  seasonRegLambda : Option ℚ       -- l_season = config_seasonality.reg_lambda
  hasEventsOrHolidays : Bool       -- config_events or config_holidays not None
  hasRegressors : Bool             -- config_regressors.regressors is not None
  hasTrend : Bool                  -- config_trend is not None
  trendGlobalLocal : String        -- config_trend.trend_global_local
  trendLocalReg : ℚ                -- config_trend.trend_local_reg
  seasonGlobalLocal : String       -- config_seasonality.global_local
  seasonLocalReg : ℚ               -- config_seasonality.seasonality_local_reg
  arRegSum : ℚ                     -- torch.sum(config_ar.regularize(ar_weights))
  trendRegTerm : ℚ                 -- reg_func_trend(...)
  seasonRegTerms : List ℚ          -- reg_func_season per seasonality name
  eventsRegTerm : ℚ                -- reg_func_events(...)
  regressorsRegTerm : ℚ            -- reg_func_regressors(...)
  trendGlocalTerm : ℚ              -- reg_func_trend_glocal(...)
  seasonGlocalTerm : ℚ             -- reg_func_seasonality_glocal(...)

/-- `_add_batch_regularizations(loss, progress)`, with the delay weight
(line 955, computed by the external `config_train.get_reg_delay_weight`)
passed in directly. Returns `(loss, reg_loss)` as on line 1011. -/
def addBatchRegularizations (m : RegModel) (loss delay_weight : ℚ) : ℚ × ℚ :=
  -- line 957
  let reg_loss : ℚ := 0
  -- lines 958-990: delay-gated block
  let reg_loss :=
    if 0 < delay_weight then
      -- lines 960-963: AR sparsity, normalized by n_forecasts
      let reg_loss :=
        match m.arRegLambda with
        | some reg_lambda =>
            if 0 < m.max_lags then reg_loss + reg_lambda * (m.arRegSum / m.n_forecasts)
            else reg_loss
        | none => reg_loss
      -- lines 966-972: trend smoothness (only with changepoints and l_trend > 0)
      let reg_loss :=
        match m.trendReg with
        | some l_trend =>
            if 0 < m.trendNChangepoints ∧ 0 < l_trend then reg_loss + l_trend * m.trendRegTerm
            else reg_loss
        | none => reg_loss
      -- lines 975-980: per-name seasonality sparsity
      let reg_loss :=
        if m.hasSeasonality then
          match m.seasonRegLambda with
          | some l_season =>
              if m.seasonDimsPresent ∧ 0 < l_season then
                m.seasonRegTerms.foldl (fun acc reg_season => acc + l_season * reg_season) reg_loss
              else reg_loss
          | none => reg_loss
        else reg_loss
      -- lines 983-985: events sparsity
      let reg_loss := if m.hasEventsOrHolidays then reg_loss + m.eventsRegTerm else reg_loss
      -- lines 988-990: regressors sparsity
      let reg_loss := if m.hasRegressors then reg_loss + m.regressorsRegTerm else reg_loss
      reg_loss
    else reg_loss
  -- lines 992-999: always-on glocal trend term (gate is mode == "local" only)
  let reg_loss :=
    if m.hasTrend then
      if m.trendGlobalLocal = "local" ∧ m.trendLocalReg ≠ 0 then reg_loss + m.trendGlocalTerm
      else reg_loss
    else reg_loss
  -- lines 1001-1009: always-on glocal seasonality term (mode local or glocal)
  let reg_loss :=
    if m.hasSeasonality then
      if (m.seasonGlobalLocal = "local" ∨ m.seasonGlobalLocal = "glocal")
          ∧ m.seasonLocalReg ≠ 0 then
        reg_loss + m.seasonGlocalTerm
      else reg_loss
    else reg_loss
  -- line 1010
  (loss + reg_loss, reg_loss)

/-- The always-on per-series trend contribution, with the gate as the source
has it: only mode exactly "local" (with truthy weight) adds the term. -/
def trendLocalContribution (m : RegModel) : ℚ :=
  if m.hasTrend ∧ m.trendGlobalLocal = "local" ∧ m.trendLocalReg ≠ 0 then m.trendGlocalTerm
  else 0

/-- The always-on per-series seasonality contribution: mode "local" or
"glocal" with truthy weight adds the term. -/
def seasonalityLocalContribution (m : RegModel) : ℚ :=
  if m.hasSeasonality ∧ (m.seasonGlobalLocal = "local" ∨ m.seasonGlobalLocal = "glocal")
      ∧ m.seasonLocalReg ≠ 0 then
    m.seasonGlocalTerm
  else 0

/-- The trend gate as claim C4 states it: added whenever the mode is local OR
glocal with nonzero weight. The source disagrees for "glocal". -/
def claimedTrendLocalContribution (m : RegModel) : ℚ :=
  if m.hasTrend ∧ (m.trendGlobalLocal = "local" ∨ m.trendGlobalLocal = "glocal")
      ∧ m.trendLocalReg ≠ 0 then
    m.trendGlocalTerm
  else 0

lemma regLoss_zero_delay (m : RegModel) (loss : ℚ) :
    (addBatchRegularizations m loss 0).2
      = trendLocalContribution m + seasonalityLocalContribution m := by
  have hdelay : ¬ ((0:ℚ) < 0) := lt_irrefl 0
  rw [addBatchRegularizations, trendLocalContribution, seasonalityLocalContribution]
  simp only [if_neg hdelay]
  split_ifs <;> simp_all

/-- C3: when the regularization delay weight is 0, the returned regularization
loss equals exactly the sum of the always-on local (glocal) trend and
seasonality contributions — zero when neither is configured — and none of the
delay-gated terms contributes; the returned total loss is the data loss plus
that regularization loss. -/
theorem delay_weight_gating (m : RegModel) (loss : ℚ) :
    (addBatchRegularizations m loss 0).2
      = trendLocalContribution m + seasonalityLocalContribution m
    ∧ (trendLocalContribution m = 0 → seasonalityLocalContribution m = 0 →
        (addBatchRegularizations m loss 0).2 = 0)
    ∧ (addBatchRegularizations m loss 0).1 = loss + (addBatchRegularizations m loss 0).2 := by
  refine ⟨regLoss_zero_delay m loss, ?_, ?_⟩
  · intro h1 h2
    rw [regLoss_zero_delay m loss, h1, h2]
    norm_num
  · rw [addBatchRegularizations]

/-- C4 amended: the always-on local regularization contribution obeys: for
seasonality, it is the external glocal term exactly when the mode is local or
glocal with nonzero weight; for trend, only when the mode is exactly local
(mode glocal contributes nothing, contrary to the original claim); when a
component's mode is global the contribution is zero regardless of the
configured weight; and the regularization loss under zero delay weight is the
sum of these two contributions. -/
theorem local_regularization_gate (m : RegModel) (loss : ℚ) :
    (addBatchRegularizations m loss 0).2
      = trendLocalContribution m + seasonalityLocalContribution m
    ∧ (m.trendGlobalLocal = "global" → trendLocalContribution m = 0)
    ∧ (m.seasonGlobalLocal = "global" → seasonalityLocalContribution m = 0)
    ∧ (m.trendGlobalLocal = "glocal" → trendLocalContribution m = 0)
    ∧ (m.hasTrend = true → m.trendGlobalLocal = "local" → m.trendLocalReg ≠ 0 →
        trendLocalContribution m = m.trendGlocalTerm)
    ∧ (m.hasSeasonality = true →
        (m.seasonGlobalLocal = "local" ∨ m.seasonGlobalLocal = "glocal") →
        m.seasonLocalReg ≠ 0 → seasonalityLocalContribution m = m.seasonGlocalTerm) := by
  refine ⟨regLoss_zero_delay m loss, ?_, ?_, ?_, ?_, ?_⟩
  · intro hg
    rw [trendLocalContribution, if_neg]
    simp [hg]
  · intro hg
    rw [seasonalityLocalContribution, if_neg]
    simp [hg]
  · intro hg
    rw [trendLocalContribution, if_neg]
    simp [hg]
  · intro ht hl hw
    rw [trendLocalContribution, if_pos ⟨ht, hl, hw⟩]
  · intro hs hl hw
    rw [seasonalityLocalContribution, if_pos ⟨hs, hl, hw⟩]

/-- A model whose trend is configured glocal with nonzero local-regularization
weight and nonzero external glocal term, and nothing else configured. -/
def regModelGlocalTrend : RegModel :=
  ⟨0, 1, none, 0, none, false, false, none, false, false,
   true, "glocal", 1, "global", 0,
   0, 0, [], 0, 0, 5, 0⟩

/-- C4 counterexample: on `regModelGlocalTrend` (trend glocal, weight 1) the
regularization loss is 0, while the claim (trend term added for local OR
glocal) demands 5. -/
theorem local_regularization_gate_counterexample :
    (addBatchRegularizations regModelGlocalTrend 0 0).2 = 0
    ∧ claimedTrendLocalContribution regModelGlocalTrend
        + seasonalityLocalContribution regModelGlocalTrend = 5
    ∧ (addBatchRegularizations regModelGlocalTrend 0 0).2
      ≠ claimedTrendLocalContribution regModelGlocalTrend
        + seasonalityLocalContribution regModelGlocalTrend := by
  have h1 : (addBatchRegularizations regModelGlocalTrend 0 0).2 = 0 := by
    rw [addBatchRegularizations]
    norm_num [regModelGlocalTrend]
    decide
  have h2 : claimedTrendLocalContribution regModelGlocalTrend
      + seasonalityLocalContribution regModelGlocalTrend = 5 := by
    rw [claimedTrendLocalContribution, seasonalityLocalContribution]
    norm_num [regModelGlocalTrend]
  exact ⟨h1, h2, by rw [h1, h2]; norm_num⟩

/-! ## Construction-time validation (`TimeNet.__init__`, lines 208-255) -/

/-- One entry of `events_dims`: its configured mode string and the number of
feature indices (`len(configs["event_indices"])`). -/
structure EventConfig where
  mode : String
  nIndices : ℕ

/-- Lines 235-237: an unrecognized event/holiday mode is coerced to
"additive" with a logged error, not a raise. -/
def coerceEventMode (e : EventConfig) : EventConfig :=
  if e.mode ≠ "additive" ∧ e.mode ≠ "multiplicative" then ⟨"additive", e.nIndices⟩ else e

/-- Lines 231-244: the loop over `events_dims`. Each event is coerced, then
counted as additive, or as multiplicative — raising ValueError when no trend is
configured. Returns the coerced configs together with the two parameter
counts. -/
def processEvents (hasTrend : Bool) :
    List EventConfig → ℕ → ℕ → Except String (List EventConfig × ℕ × ℕ)
  | [], n_additive, n_multiplicative => .ok ([], n_additive, n_multiplicative)
  | e :: rest, n_additive, n_multiplicative =>
    let e2 := coerceEventMode e
    if e2.mode = "additive" then
      (processEvents hasTrend rest (n_additive + e2.nIndices) n_multiplicative).map
        (fun r => (e2 :: r.1, r.2))
    else if e2.mode = "multiplicative" then
      if hasTrend then
        (processEvents hasTrend rest n_additive (n_multiplicative + e2.nIndices)).map
          (fun r => (e2 :: r.1, r.2))
      else .error "Multiplicative events require trend."
    else
      (processEvents hasTrend rest n_additive n_multiplicative).map
        (fun r => (e2 :: r.1, r.2))

/-- Lines 210-215: the seasonality configuration checks, in source order. -/
def seasonalityChecks (hasTrend : Bool) (seasonalityMode : Option String) :
    Except String Unit :=
  match seasonalityMode with
  | some mode =>
    if mode = "multiplicative" ∧ hasTrend = false then
      .error "Multiplicative seasonality requires trend."
    else if mode ≠ "additive" ∧ mode ≠ "multiplicative" then
      .error "Seasonality Mode not implemented."
    else .ok ()
  | none => .ok ()

/-- The validation performed by `TimeNet.__init__` (lines 208-255): seasonality
checks first, then the events loop when `events_dims` is present. On success
returns the (possibly coerced) events configuration. -/
def timeNetInitChecks (hasTrend : Bool) (seasonalityMode : Option String)
    (events_dims : Option (List EventConfig)) :
    Except String (Option (List EventConfig × ℕ × ℕ)) :=
  match seasonalityChecks hasTrend seasonalityMode with
  | .error s => .error s
  | .ok _ =>
    match events_dims with
    | some evs =>
      match processEvents hasTrend evs 0 0 with
      | .ok r => .ok (some r)
      | .error s => .error s
    | none => .ok none

lemma coerced_mode_mult_of_not_add (e : EventConfig)
    (hadd : ¬ (coerceEventMode e).mode = "additive") :
    (coerceEventMode e).mode = "multiplicative" := by
  by_cases hco : e.mode ≠ "additive" ∧ e.mode ≠ "multiplicative"
  · exfalso
    apply hadd
    rw [coerceEventMode, if_pos hco]
  · rw [coerceEventMode, if_neg hco] at hadd ⊢
    push_neg at hco
    by_cases h1 : e.mode = "additive"
    · exact absurd h1 hadd
    · exact hco h1

lemma coerced_mode_mult_iff (e : EventConfig) :
    (coerceEventMode e).mode = "multiplicative" ↔ e.mode = "multiplicative" := by
  rw [coerceEventMode]
  split_ifs with hco
  · simp only []
    constructor
    · intro hx; exact absurd hx.symm (by decide)
    · intro hx; exact absurd hx hco.2
  · exact Iff.rfl

lemma processEvents_ok_of (hasTrend : Bool) (evs : List EventConfig)
    (h : hasTrend = true ∨ ∀ e ∈ evs, e.mode ≠ "multiplicative") :
    ∀ na nm, ∃ na2 nm2,
      processEvents hasTrend evs na nm = .ok (evs.map coerceEventMode, na2, nm2) := by
  induction evs with
  | nil => intro na nm; exact ⟨na, nm, rfl⟩
  | cons e rest ih =>
    intro na nm
    have hrest : hasTrend = true ∨ ∀ x ∈ rest, x.mode ≠ "multiplicative" := by
      rcases h with h | h
      · exact Or.inl h
      · exact Or.inr fun x hx => h x (List.mem_cons_of_mem _ hx)
    rw [processEvents]
    by_cases hadd : (coerceEventMode e).mode = "additive"
    · rw [if_pos hadd]
      obtain ⟨na2, nm2, hr⟩ := ih hrest (na + (coerceEventMode e).nIndices) nm
      exact ⟨na2, nm2, by rw [hr]; rfl⟩
    · rw [if_neg hadd]
      have hmult : (coerceEventMode e).mode = "multiplicative" :=
        coerced_mode_mult_of_not_add e hadd
      rw [if_pos hmult]
      have htr : hasTrend = true := by
        rcases h with h | h
        · exact h
        · exact absurd ((coerced_mode_mult_iff e).mp hmult) (h e (List.mem_cons_self _ _))
      subst htr
      rw [if_pos rfl]
      obtain ⟨na2, nm2, hr⟩ := ih hrest na (nm + (coerceEventMode e).nIndices)
      exact ⟨na2, nm2, by rw [hr]; rfl⟩

lemma processEvents_error_of (evs : List EventConfig)
    (h : ∃ e ∈ evs, e.mode = "multiplicative") :
    ∀ na nm, ∃ s, processEvents false evs na nm = .error s := by
  induction evs with
  | nil => simp at h
  | cons e rest ih =>
    intro na nm
    rw [processEvents]
    by_cases he : e.mode = "multiplicative"
    · have hco : coerceEventMode e = e := by
        rw [coerceEventMode, if_neg (fun hcond => hcond.2 he)]
      rw [hco, if_neg (by rw [he]; decide), if_pos he]
      simp only [Bool.false_eq_true, if_false]
      exact ⟨_, rfl⟩
    · have hrest : ∃ x ∈ rest, x.mode = "multiplicative" := by
        rcases h with ⟨x, hx, hxm⟩
        rcases List.mem_cons.mp hx with rfl | hx2
        · exact absurd hxm he
        · exact ⟨x, hx2, hxm⟩
      by_cases hadd : (coerceEventMode e).mode = "additive"
      · rw [if_pos hadd]
        obtain ⟨s, hs⟩ := ih hrest (na + (coerceEventMode e).nIndices) nm
        exact ⟨s, by rw [hs]; rfl⟩
      · have hmult : (coerceEventMode e).mode = "multiplicative" :=
          coerced_mode_mult_of_not_add e hadd
        rw [if_neg hadd, if_pos hmult]
        simp only [Bool.false_eq_true, if_false]
        exact ⟨_, rfl⟩

lemma seasonalityChecks_error_iff (hasTrend : Bool) (sm : Option String) :
    (∃ s, seasonalityChecks hasTrend sm = .error s)
      ↔ (sm = some "multiplicative" ∧ hasTrend = false)
        ∨ (∃ mo, sm = some mo ∧ mo ≠ "additive" ∧ mo ≠ "multiplicative") := by
  cases sm with
  | none => simp [seasonalityChecks]
  | some mode =>
    rw [seasonalityChecks]
    split_ifs with h1 h2
    · constructor
      · intro _
        exact Or.inl ⟨by rw [h1.1], h1.2⟩
      · intro _
        exact ⟨_, rfl⟩
    · constructor
      · intro _
        exact Or.inr ⟨mode, rfl, h2.1, h2.2⟩
      · intro _
        exact ⟨_, rfl⟩
    · constructor
      · rintro ⟨s, hs⟩
        exact absurd hs (by simp)
      · rintro (⟨ha, hb⟩ | ⟨mo, hmo, h3, h4⟩)
        · exact absurd ⟨by injection ha, hb⟩ h1
        · injection hmo with hmo2
          subst hmo2
          exact absurd ⟨h3, h4⟩ h2

/-- C6: construction raises exactly for these misconfigurations:
multiplicative seasonality without trend, a seasonality mode other than
additive or multiplicative, and a multiplicative event without trend; an event
with an unrecognized mode does not raise — it is coerced to additive (with a
logged message) and construction succeeds with the coerced configuration. -/
theorem construction_error_conditions (hasTrend : Bool) (seasonalityMode : Option String)
    (events_dims : Option (List EventConfig)) :
    ((∃ s, timeNetInitChecks hasTrend seasonalityMode events_dims = .error s)
      ↔ (seasonalityMode = some "multiplicative" ∧ hasTrend = false)
        ∨ (∃ mo, seasonalityMode = some mo ∧ mo ≠ "additive" ∧ mo ≠ "multiplicative")
        ∨ (hasTrend = false ∧ ∃ evs, events_dims = some evs
            ∧ ∃ e ∈ evs, e.mode = "multiplicative"))
    ∧ (∀ evs r, events_dims = some evs →
        timeNetInitChecks hasTrend seasonalityMode events_dims = .ok (some r) →
        r.1 = evs.map coerceEventMode) := by
  rcases hsc : seasonalityChecks hasTrend seasonalityMode with s | u
  · have hSeasErr : (seasonalityMode = some "multiplicative" ∧ hasTrend = false)
        ∨ (∃ mo, seasonalityMode = some mo ∧ mo ≠ "additive" ∧ mo ≠ "multiplicative") :=
      (seasonalityChecks_error_iff hasTrend seasonalityMode).mp ⟨s, hsc⟩
    constructor
    · constructor
      · intro _
        rcases hSeasErr with hA | hB
        · exact Or.inl hA
        · exact Or.inr (Or.inl hB)
      · intro _
        refine ⟨s, ?_⟩
        simp only [timeNetInitChecks, hsc]
    · intro evs r hevs hok
      simp only [timeNetInitChecks, hsc] at hok
      exact absurd hok (by simp)
  · have hnoSeasErr : ¬ ((seasonalityMode = some "multiplicative" ∧ hasTrend = false)
        ∨ (∃ mo, seasonalityMode = some mo ∧ mo ≠ "additive" ∧ mo ≠ "multiplicative")) := by
      intro hcon
      obtain ⟨s, hs⟩ := (seasonalityChecks_error_iff hasTrend seasonalityMode).mpr hcon
      rw [hsc] at hs
      exact absurd hs (by simp)
    cases events_dims with
    | none =>
      constructor
      · simp only [timeNetInitChecks, hsc]
        constructor
        · rintro ⟨s, hs⟩
          exact absurd hs (by simp)
        · rintro (hA | hB | ⟨_, evs, hevs, _⟩)
          · exact absurd (Or.inl hA) hnoSeasErr
          · exact absurd (Or.inr hB) hnoSeasErr
          · exact absurd hevs (by simp)
      · intro evs r hevs
        exact absurd hevs (by simp)
    | some evs =>
      by_cases hErr : hasTrend = false ∧ ∃ e ∈ evs, e.mode = "multiplicative"
      · obtain ⟨ht, hmultEv⟩ := hErr
        subst ht
        obtain ⟨s2, hs2⟩ := processEvents_error_of evs hmultEv 0 0
        constructor
        · constructor
          · intro _
            exact Or.inr (Or.inr ⟨rfl, evs, rfl, hmultEv⟩)
          · intro _
            refine ⟨s2, ?_⟩
            simp only [timeNetInitChecks, hsc, hs2]
        · intro evs2 r hevs2 hok
          injection hevs2 with hevs2
          subst hevs2
          simp only [timeNetInitChecks, hsc, hs2] at hok
          exact absurd hok (by simp)
      · have hok2 : hasTrend = true ∨ ∀ e ∈ evs, e.mode ≠ "multiplicative" := by
          by_cases ht : hasTrend = true
          · exact Or.inl ht
          · refine Or.inr fun e he hm => hErr ⟨by simpa using ht, e, he, hm⟩
        obtain ⟨na2, nm2, hr⟩ := processEvents_ok_of hasTrend evs hok2 0 0
        constructor
        · constructor
          · rintro ⟨s, hs⟩
            simp only [timeNetInitChecks, hsc, hr] at hs
            exact absurd hs (by simp)
          · rintro (hA | hB | ⟨ht, evs2, hevs2, hmult⟩)
            · exact absurd (Or.inl hA) hnoSeasErr
            · exact absurd (Or.inr hB) hnoSeasErr
            · injection hevs2 with hevs2
              subst hevs2
              exact absurd ⟨ht, hmult⟩ hErr
        · intro evs2 r hevs2 hok
          injection hevs2 with hevs2
          subst hevs2
          simp only [timeNetInitChecks, hsc, hr] at hok
          injection hok with h1
          injection h1 with h2
          rw [← h2]
/-! ## Training step ordering (`training_step`, lines 787-833) -/

/-- The externally observable actions of one training step. -/
inductive StepAction where
  | computeProgress
  | unstackTargets
  | unstackTime
  | forwardPass
  | computeLoss
  | zeroGrad
  | backwardPass
  | optimizerStep
  | schedulerStep
  | logLrFinderLoss
  | logMetrics
  deriving DecidableEq

/-- The sequence of actions performed by `training_step` (lines 790-832), in
source order: progress (790-791), target/time unstacking (792-793), forward
pass (800), loss (804), `optimizer.zero_grad()` (808), `manual_backward`
(809), `optimizer.step()` (810), scheduler step — both branches of lines
812-816 step the scheduler, with different arguments — then the lr-finder
logging (818-820) and the metrics logging (824-832) under their flags. -/
def trainingStepTrace (finding_lr metrics_enabled : Bool) : List StepAction :=
  [.computeProgress, .unstackTargets, .unstackTime, .forwardPass, .computeLoss,
   .zeroGrad, .backwardPass, .optimizerStep]
  ++ (if finding_lr then [.schedulerStep] else [.schedulerStep])
  ++ (if finding_lr then [.logLrFinderLoss] else [])
  ++ (if metrics_enabled ∧ ¬ finding_lr then [.logMetrics] else [])

/-- The four optimization actions of the claim. -/
def isOptimizationAction : StepAction → Bool
  | .zeroGrad => true
  | .backwardPass => true
  | .optimizerStep => true
  | .schedulerStep => true
  | _ => false

/-- C9: in every training step (all flag combinations), the optimization
actions occur exactly once each and in the exact order: gradient zeroing, then
backpropagation, then the optimizer step, then the scheduler step. -/
theorem training_step_optimization_order :
    ∀ finding_lr metrics_enabled : Bool,
      (trainingStepTrace finding_lr metrics_enabled).filter isOptimizationAction
        = [.zeroGrad, .backwardPass, .optimizerStep, .schedulerStep] := by
  decide

end TimeNet
